import Mathlib

/-!
Verification of the fleman pipeline (audio extraction, translation,
subtitle generation, subtitle embedding) against its specification.

The Python sources are shallowly embedded: each relevant function is
translated into a pure Lean definition over `String` / `List` / `ℚ` / `ℤ`,
with remote-call responses and filesystem facts passed in as explicit
parameters.  Machine floats in the size-fitting arithmetic are modelled
as exact rationals; none of the verified comparisons is close enough to a
representation boundary for the difference to matter.
-/

namespace Fleman

/-- Characters matched by Python's `\s` (ASCII part; the repository only
feeds filenames and transcript text through it). -/
def pyIsSpace (c : Char) : Bool :=
  c = ' ' || c = '\t' || c = '\n' || c = '\r' || c = '\x0b' || c = '\x0c'

/-- ASCII lowercase of one character, as Python's `str.lower` acts on the
ASCII strings this program lowercases (format and container names). -/
def pyLowerChar (c : Char) : Char :=
  if 'A' ≤ c ∧ c ≤ 'Z' then Char.ofNat (c.toNat + 32) else c

/-- Python `str.lower()` restricted to ASCII content. -/
def pyLower (s : String) : String := ⟨s.data.map pyLowerChar⟩

/-- Characters removed by `sanitize_filename` via `re.sub(r"[&?*:;|<>]", "")`. -/
def bannedChar (c : Char) : Bool :=
  c = '&' || c = '?' || c = '*' || c = ':' || c = ';' || c = '|' || c = '<' || c = '>'

/-- `re.sub(r"\s+", "_", s)` on the character list: every maximal run of
whitespace becomes a single underscore.  `inRun` records whether the
previous character was whitespace (so the run already emitted its `_`). -/
def collapseWsAux (inRun : Bool) : List Char → List Char
  | [] => []
  | c :: cs =>
    if pyIsSpace c then
      if inRun then collapseWsAux true cs
      else '_' :: collapseWsAux true cs
    else c :: collapseWsAux false cs

def collapseWs (l : List Char) : List Char := collapseWsAux false l

/-- Embedding of `sanitize_filename` (subtitles/generator.py, lines 13-27):
collapse whitespace runs to `_`, then strip the characters `&?*:;|<>`. -/
def sanitize_filename (s : String) : String :=
  ⟨(collapseWs s.data).filter (fun c => !bannedChar c)⟩

lemma collapseWsAux_no_space {l : List Char} :
    ∀ b, ∀ c ∈ collapseWsAux b l, pyIsSpace c = false := by
  induction l with
  | nil => intro b c hc; simp [collapseWsAux] at hc
  | cons c cs ih =>
    intro b d hd
    by_cases hsp : pyIsSpace c
    · rw [collapseWsAux, if_pos hsp] at hd
      cases b with
      | true => exact ih true d hd
      | false =>
        rcases List.mem_cons.mp hd with hd | hd
        · subst hd; rfl
        · exact ih true d hd
    · rw [collapseWsAux, if_neg hsp] at hd
      rcases List.mem_cons.mp hd with hd | hd
      · subst hd; simpa using hsp
      · exact ih false d hd

lemma collapseWs_no_space {l : List Char} :
    ∀ c ∈ collapseWs l, pyIsSpace c = false :=
  collapseWsAux_no_space false

lemma collapseWsAux_of_no_space {l : List Char}
    (h : ∀ c ∈ l, pyIsSpace c = false) : ∀ b, collapseWsAux b l = l := by
  induction l with
  | nil => intro b; rfl
  | cons c cs ih =>
    intro b
    have hc : pyIsSpace c = false := h c (List.mem_cons_self c cs)
    rw [collapseWsAux, if_neg (by simp [hc])]
    exact congrArg (c :: ·) (ih (fun d hd => h d (List.mem_cons_of_mem c hd)) false)

lemma collapseWs_of_no_space {l : List Char}
    (h : ∀ c ∈ l, pyIsSpace c = false) : collapseWs l = l :=
  collapseWsAux_of_no_space h false

lemma sanitize_no_space {s : String} :
    ∀ c ∈ (sanitize_filename s).data, pyIsSpace c = false := by
  intro c hc
  have : c ∈ collapseWs s.data := List.mem_of_mem_filter hc
  exact collapseWs_no_space c this

lemma sanitize_no_banned {s : String} :
    ∀ c ∈ (sanitize_filename s).data, bannedChar c = false := by
  intro c hc
  have := List.of_mem_filter hc
  simpa using this

/-- C10 (confirmed): `sanitize_filename` is idempotent.  A sanitized name
contains no whitespace (runs were replaced by `_`) and none of the stripped
characters, so a second pass changes nothing. -/
theorem c10_sanitize_idempotent (s : String) :
    sanitize_filename (sanitize_filename s) = sanitize_filename s := by
  have hns : ∀ c ∈ (sanitize_filename s).data, pyIsSpace c = false :=
    sanitize_no_space
  have hnb : ∀ c ∈ (sanitize_filename s).data, bannedChar c = false :=
    sanitize_no_banned
  show (⟨((collapseWs (sanitize_filename s).data).filter
      (fun c => !bannedChar c))⟩ : String) = sanitize_filename s
  rw [collapseWs_of_no_space hns]
  have hf : ((sanitize_filename s).data).filter (fun c => !bannedChar c) =
      (sanitize_filename s).data := by
    rw [List.filter_eq_self]
    intro c hc
    simp [hnb c hc]
  rw [hf]

lemma collapseWsAux_true_all_space {r : List Char} (b : List Char)
    (h : ∀ c ∈ r, pyIsSpace c = true) :
    collapseWsAux true (r ++ b) = collapseWsAux true b := by
  induction r with
  | nil => rfl
  | cons c cs ih =>
    have hc : pyIsSpace c = true := h c (List.mem_cons_self c cs)
    rw [List.cons_append, collapseWsAux, if_pos (by simp [hc])]
    exact ih fun d hd => h d (List.mem_cons_of_mem c hd)

lemma collapseWsAux_true_eq_false {b : List Char}
    (h : ∀ c ∈ b.take 1, pyIsSpace c = false) :
    collapseWsAux true b = collapseWsAux false b := by
  cases b with
  | nil => rfl
  | cons c cs =>
    have hc : pyIsSpace c = false := h c (by simp)
    rw [collapseWsAux, collapseWsAux, if_neg (by simp [hc]), if_neg (by simp [hc])]

lemma collapseWs_run (x r y : List Char) (hr : r ≠ [])
    (hrs : ∀ c ∈ r, pyIsSpace c = true)
    (hx : ∀ c ∈ x, pyIsSpace c = false)
    (hy : ∀ c ∈ y.take 1, pyIsSpace c = false) :
    collapseWs (x ++ r ++ y) = x ++ '_' :: collapseWs y := by
  induction x with
  | nil =>
    cases r with
    | nil => exact absurd rfl hr
    | cons c cs =>
      have hc : pyIsSpace c = true := hrs c (List.mem_cons_self c cs)
      show collapseWsAux false (c :: (cs ++ y)) = '_' :: collapseWs y
      rw [collapseWsAux, if_pos (by simp [hc])]
      rw [collapseWsAux_true_all_space y fun d hd => hrs d (List.mem_cons_of_mem c hd)]
      rw [collapseWsAux_true_eq_false hy]
      rfl
  | cons a as ih =>
    have ha : pyIsSpace a = false := hx a (List.mem_cons_self a as)
    show collapseWsAux false (a :: (as ++ r ++ y)) = a :: (as ++ '_' :: collapseWs y)
    rw [collapseWsAux, if_neg (by simp [ha])]
    exact congrArg (a :: ·) (ih fun d hd => hx d (List.mem_cons_of_mem a hd))

/-- C7 (amended): `sanitize_filename` leaves no whitespace and none of the
characters `&?*:;|<>` in its output, and collapses every maximal whitespace
run to a single underscore (formulated compositionally: a whitespace run
between a whitespace-free prefix and a suffix not starting with whitespace
becomes exactly one `_`).  The spec example, however, maps to
`"My_Movie_Cut_#1.ass"`: `#` is not in the removal class and is kept. -/
theorem c7_sanitize_properties :
    (∀ s : String, ∀ c ∈ (sanitize_filename s).data,
        pyIsSpace c = false ∧ bannedChar c = false) ∧
    (∀ x y : String, ∀ r : List Char, r ≠ [] →
      (∀ c ∈ r, pyIsSpace c = true) →
      (∀ c ∈ x.data, pyIsSpace c = false) →
      (∀ c ∈ y.data.take 1, pyIsSpace c = false) →
      sanitize_filename ⟨x.data ++ r ++ y.data⟩ =
        sanitize_filename x ++ "_" ++ sanitize_filename y) ∧
    sanitize_filename "My Movie: Cut #1.ass" = "My_Movie_Cut_#1.ass" := by
  refine ⟨fun s c hc => ⟨sanitize_no_space c hc, sanitize_no_banned c hc⟩, ?_, rfl⟩
  intro x y r hr hrs hx hy
  show (⟨(collapseWs (x.data ++ r ++ y.data)).filter (fun c => !bannedChar c)⟩ :
      String) = sanitize_filename x ++ "_" ++ sanitize_filename y
  rw [collapseWs_run x.data r y.data hr hrs hx hy]
  apply congrArg String.mk
  have hxc : collapseWs x.data = x.data := collapseWs_of_no_space hx
  show (x.data ++ '_' :: collapseWs y.data).filter (fun c => !bannedChar c) =
    ((sanitize_filename x).data ++ "_".data) ++ (sanitize_filename y).data
  rw [List.filter_append]
  show x.data.filter (fun c => !bannedChar c) ++
      ('_' :: collapseWs y.data).filter (fun c => !bannedChar c) =
    ((sanitize_filename x).data ++ "_".data) ++ (sanitize_filename y).data
  rw [List.filter_cons_of_pos (by decide)]
  show x.data.filter (fun c => !bannedChar c) ++
      '_' :: (collapseWs y.data).filter (fun c => !bannedChar c) =
    ((sanitize_filename x).data ++ "_".data) ++ (sanitize_filename y).data
  rw [show (sanitize_filename x).data =
      x.data.filter (fun c => !bannedChar c) by rw [sanitize_filename, hxc]]
  simp [sanitize_filename]

/-- C7 counterexample: the spec example claims
`"My Movie: Cut #1.ass" ↦ "My_Movie_Cut_1.ass"`, but `#` is not in the
removal class `[&?*:;|<>]`, so the code keeps it and produces
`"My_Movie_Cut_#1.ass"`. -/
theorem c7_counterexample :
    sanitize_filename "My Movie: Cut #1.ass" = "My_Movie_Cut_#1.ass" ∧
      sanitize_filename "My Movie: Cut #1.ass" ≠ "My_Movie_Cut_1.ass" := by
  constructor
  · rfl
  · decide

/-- Witness for `c7_sanitize_properties`: the run-collapse part applied to
the concrete split `"a" ++ " \t" ++ "b.c"`. -/
theorem c7_sanitize_witness :
    ([' ', '\t'] ≠ ([] : List Char)) ∧
    sanitize_filename ⟨"a".data ++ [' ', '\t'] ++ "b.c".data⟩ =
      sanitize_filename "a" ++ "_" ++ sanitize_filename "b.c" :=
  ⟨by decide,
    c7_sanitize_properties.2.1 "a" "b.c" [' ', '\t']
      (by decide) (by decide) (by decide) (by decide)⟩

/-! ## Audio extraction (utils/media.py, `extract_audio`) -/

/-- Truthiness of the optional numeric ffmpeg settings: Python treats both
`None` and `0` as falsy in `if sample_rate:` / `if channels:` / `if bit_depth:`. -/
def truthyNat (o : Option ℕ) : Bool := o.getD 0 ≠ 0

/-- `estimated_size_mb` for the small-mode baseline 16000 Hz × 16-bit × mono
(media.py lines 170-179): `duration * 32000 / (1024*1024)` in MB. -/
def estimated_size_mb (duration : ℚ) : ℚ := duration * 32000 / (1024 * 1024)

/-- `max_sample_rate` that fits in `max_size_mb` (media.py lines 184-187):
`max_size_mb*1024*1024 / duration / (16/8) / 1`. -/
def max_fit_rate (duration max_size_mb : ℚ) : ℚ :=
  max_size_mb * 1024 * 1024 / duration / (16 / 8) / 1

/-- The sample-rate ladder snap (media.py lines 190-199). -/
def ladder_pick (msr : ℚ) : ℕ :=
  if msr < 8000 then 8000
  else if msr < 16000 then 8000
  else if msr < 22050 then 16000
  else if msr < 44100 then 22050
  else 44100

/-- The sample rate chosen by small mode (media.py lines 164-201): the
16 kHz baseline, lowered through the ladder only when the baseline estimate
exceeds the cap and the duration is positive. -/
def small_sample_rate (duration max_size_mb : ℚ) : ℕ :=
  if estimated_size_mb duration > max_size_mb ∧ duration > 0 then
    ladder_pick (max_fit_rate duration max_size_mb)
  else 16000

/-- Embedding of the ffmpeg argument list built by `extract_audio`
(media.py lines 120-230).  The external-process invocation itself, the
existence check and the probe are outside the argument construction; the
probed duration is a parameter. -/
def extract_audio_cmd (video_path output_path : String) (format : String)
    (audio_opts : List (String × String))
    (sample_rate channels bit_depth : Option ℕ)
    (small : Bool) (max_size_mb duration : ℚ) : List String :=
  let base := ["ffmpeg", "-y", "-i", video_path]
  let settings : Option ℕ × Option ℕ × Option ℕ :=
    if small then
      (some (small_sample_rate duration max_size_mb), some 1, some 16)
    else (sample_rate, channels, bit_depth)
  let sr := settings.1
  let ch := settings.2.1
  let bd := settings.2.2
  let cmd := base ++ (if truthyNat sr then ["-ar", toString (sr.getD 0)] else [])
  let cmd := cmd ++ (if truthyNat ch then ["-ac", toString (ch.getD 0)] else [])
  let cmd := cmd ++
    (if truthyNat bd ∧ pyLower format = "wav" then
      (if bd.getD 0 = 8 then ["-acodec", "pcm_u8"]
       else if bd.getD 0 = 16 then ["-acodec", "pcm_s16le"]
       else if bd.getD 0 = 24 then ["-acodec", "pcm_s24le"]
       else ["-acodec", "pcm_s16le"])
     else [])
  let cmd := cmd ++ audio_opts.flatMap (fun kv => ["-" ++ kv.1, kv.2])
  cmd ++ [output_path]

/-- C2 counterexample: with small mode on (its default) and a short video
(the baseline estimate is under the cap, so the calculated settings are
16000 Hz / mono / 16-bit), an explicit `sample_rate=44100, channels=2,
bit_depth=24` is ignored — the argument list carries the calculated values,
so the explicit argument does NOT win. -/
theorem c2_counterexample :
    extract_audio_cmd "v.mkv" "v.wav" "wav" []
        (some 44100) (some 2) (some 24) true (39 / 2) 60 =
      ["ffmpeg", "-y", "-i", "v.mkv", "-ar", "16000", "-ac", "1",
        "-acodec", "pcm_s16le", "v.wav"] ∧
    "44100" ∉ extract_audio_cmd "v.mkv" "v.wav" "wav" []
        (some 44100) (some 2) (some 24) true (39 / 2) 60 := by
  have h : small_sample_rate 60 (39 / 2) = 16000 := by
    unfold small_sample_rate estimated_size_mb
    norm_num
  constructor
  · simp only [extract_audio_cmd, h]
    decide
  · simp only [extract_audio_cmd, h]
    decide

/-- C2 (amended): with small mode enabled the calculated size-fitting
values replace any caller-supplied `sample_rate`, `channels` and
`bit_depth` — the argument list is independent of those parameters — while
raw `audio_opts` do take precedence, because they are appended after the
calculated flags (and a later ffmpeg option overrides an earlier one for
the same setting). -/
theorem c2_small_mode_precedence
    (v o f : String) (opts : List (String × String))
    (sr ch bd : Option ℕ) (cap dur : ℚ) :
    extract_audio_cmd v o f opts sr ch bd true cap dur =
      extract_audio_cmd v o f opts none none none true cap dur ∧
    extract_audio_cmd v o f opts sr ch bd true cap dur =
      (extract_audio_cmd v o f [] sr ch bd true cap dur).dropLast ++
        opts.flatMap (fun kv => ["-" ++ kv.1, kv.2]) ++ [o] := by
  constructor
  · rfl
  · show _ = (_ ++ [o]).dropLast ++ _ ++ [o]
    rw [List.dropLast_concat]
    simp [extract_audio_cmd]

/-- C3 counterexample: at the claim's own instance (duration 3600 s, cap
19.5 MB) the computed maximum fitting sample rate is ≈ 2839.9 Hz, strictly
below every ladder value; the code clamps UP to the ladder minimum 8000 Hz,
so the selected rate is not "the largest ladder value ≤ the computed
maximum" (no ladder value is ≤ it at all). -/
theorem c3_counterexample :
    small_sample_rate 3600 (39 / 2) = 8000 ∧
      max_fit_rate 3600 (39 / 2) < 8000 := by
  constructor
  · unfold small_sample_rate estimated_size_mb ladder_pick max_fit_rate
    norm_num
  · unfold max_fit_rate
    norm_num

/-- C3 (amended): whenever the baseline estimate exceeds the cap and the
duration is positive, the selected rate is the largest ladder value that is
≤ the computed maximum fitting rate PROVIDED that maximum is at least
8000 Hz; when it is below 8000 Hz the code clamps up to the ladder minimum
8000 (a floor, not a round-down).  For duration 3600 s at the default
19.5 MB cap this floor applies and the selected rate is 8000 Hz. -/
theorem c3_ladder_selection :
    (∀ d cap : ℚ, estimated_size_mb d > cap → d > 0 →
      ((max_fit_rate d cap < 8000 → small_sample_rate d cap = 8000) ∧
       (8000 ≤ max_fit_rate d cap →
         small_sample_rate d cap ∈ [8000, 16000, 22050, 44100] ∧
         (small_sample_rate d cap : ℚ) ≤ max_fit_rate d cap ∧
         ∀ l ∈ [8000, 16000, 22050, 44100], (l : ℚ) ≤ max_fit_rate d cap →
           l ≤ small_sample_rate d cap))) ∧
    small_sample_rate 3600 (39 / 2) = 8000 := by
  constructor
  · intro d cap h1 h2
    have hc : small_sample_rate d cap = ladder_pick (max_fit_rate d cap) := by
      unfold small_sample_rate
      rw [if_pos ⟨h1, h2⟩]
    set m := max_fit_rate d cap with hm
    constructor
    · intro hlt
      rw [hc]
      unfold ladder_pick
      rw [if_pos hlt]
    · intro hge
      rw [hc]
      unfold ladder_pick
      rw [if_neg (by linarith)]
      by_cases h16 : m < 16000
      · rw [if_pos h16]
        refine ⟨by simp, by push_cast; linarith, ?_⟩
        intro l hl hlm
        simp only [List.mem_cons, List.not_mem_nil, or_false] at hl
        rcases hl with rfl | rfl | rfl | rfl
        · exact le_refl _
        · exfalso; linarith
        · exfalso; linarith
        · exfalso; linarith
      · rw [if_neg h16]
        by_cases h22 : m < 22050
        · rw [if_pos h22]
          refine ⟨by simp, by push_cast; linarith, ?_⟩
          intro l hl hlm
          simp only [List.mem_cons, List.not_mem_nil, or_false] at hl
          rcases hl with rfl | rfl | rfl | rfl
          · norm_num
          · exact le_refl _
          · exfalso; linarith
          · exfalso; linarith
        · rw [if_neg h22]
          by_cases h44 : m < 44100
          · rw [if_pos h44]
            refine ⟨by simp, by push_cast; linarith, ?_⟩
            intro l hl hlm
            simp only [List.mem_cons, List.not_mem_nil, or_false] at hl
            rcases hl with rfl | rfl | rfl | rfl
            · norm_num
            · norm_num
            · exact le_refl _
            · exfalso; linarith
          · rw [if_neg h44]
            refine ⟨by simp, by push_cast; linarith, ?_⟩
            intro l hl hlm
            simp only [List.mem_cons, List.not_mem_nil, or_false] at hl
            rcases hl with rfl | rfl | rfl | rfl
            · norm_num
            · norm_num
            · norm_num
            · exact le_refl _
  · unfold small_sample_rate estimated_size_mb ladder_pick max_fit_rate
    norm_num

/-- Witness for `c3_ladder_selection`: the floor branch at the concrete
instance duration = 3600 s, cap = 19.5 MB. -/
theorem c3_ladder_selection_witness :
    (estimated_size_mb 3600 > (39 / 2 : ℚ) ∧ (3600 : ℚ) > 0) ∧
    (max_fit_rate 3600 (39 / 2) < 8000 → small_sample_rate 3600 (39 / 2) = 8000) :=
  ⟨⟨by unfold estimated_size_mb; norm_num, by norm_num⟩,
    (c3_ladder_selection.1 3600 (39 / 2)
      (by unfold estimated_size_mb; norm_num) (by norm_num)).1⟩

/-! ## Subtitle chunking (subtitles/generator.py, lines 270-357) -/

/-- Python `str.split()` with no argument: split on whitespace runs and
drop empty pieces.  `acc` holds the current word reversed. -/
def pyWordsAux : List Char → List Char → List String
  | [], acc => if acc = [] then [] else [⟨acc.reverse⟩]
  | c :: cs, acc =>
    if pyIsSpace c then
      if acc = [] then pyWordsAux cs []
      else ⟨acc.reverse⟩ :: pyWordsAux cs []
    else pyWordsAux cs (c :: acc)

def pyWords (s : String) : List String := pyWordsAux s.data []

/-- Python `str.strip()`: drop leading and trailing whitespace. -/
def pyStrip (s : String) : String :=
  ⟨((s.data.dropWhile pyIsSpace).reverse.dropWhile pyIsSpace).reverse⟩

/-- `re.split(r"(?<=[.!?])\s+", text)` (split_into_sentences, lines
280-286): a boundary is a whitespace run immediately preceded by `.`, `!`
or `?`; other whitespace stays inside its piece.  `acc = some l` holds the
current piece reversed; `acc = none` means we are inside a boundary
whitespace run being discarded. -/
def sentSplitAux : List Char → Option (List Char) → List (List Char)
  | [], none => [[]]
  | [], some acc => [acc.reverse]
  | c :: cs, none =>
    if pyIsSpace c then sentSplitAux cs none
    else sentSplitAux cs (some [c])
  | c :: cs, some acc =>
    if pyIsSpace c && (match acc with
        | p :: _ => (p == '.') || (p == '!') || (p == '?')
        | [] => false) then
      acc.reverse :: sentSplitAux cs none
    else sentSplitAux cs (some (c :: acc))

/-- Embedding of `split_into_sentences`: split at sentence boundaries,
strip each piece, drop empties. -/
def split_into_sentences (text : String) : List String :=
  ((sentSplitAux text.data (some [])).map (fun l => pyStrip ⟨l⟩)).filter
    (fun s => s ≠ "")

/-- The accumulator of `create_subtitle_chunks`: finished `chunks` plus the
`current` chunk under construction. -/
structure ChunkState where
  chunks : List String
  current : String
deriving DecidableEq

/-- Lines 313-323 / 328-339: attach a completed wrapped line to the
current chunk if it fits within `maxC * 2` (joined by the ASS marker
`\N`), otherwise flush the current chunk. -/
def addLine (maxC : ℕ) (st : ChunkState) (line : String) : ChunkState :=
  if st.current ≠ "" then
    if (st.current ++ "\\N" ++ line).length ≤ maxC * 2 then
      { st with current := st.current ++ "\\N" ++ line }
    else { chunks := st.chunks ++ [st.current], current := line }
  else { st with current := line }

/-- Lines 309-325: greedy word wrap of an oversized sentence; returns the
state together with the still-open line. -/
def wordLoop (maxC : ℕ) : List String → String → ChunkState → ChunkState × String
  | [], line, st => (st, line)
  | w :: ws, line, st =>
    if line.length + w.length + 1 ≤ maxC then
      wordLoop maxC ws (if line = "" then w else line ++ " " ++ w) st
    else
      wordLoop maxC ws w (addLine maxC st line)

/-- Lines 341-351: group a short sentence into the current chunk with a
`" | "` separator when the combined length allows (the guard counts 4
characters for the separator). -/
def shortSentence (maxC : ℕ) (st : ChunkState) (s : String) : ChunkState :=
  if st.current ≠ "" then
    if st.current.length + s.length + 4 ≤ maxC * 2 then
      { st with current := st.current ++ " | " ++ s }
    else { chunks := st.chunks ++ [st.current], current := s }
  else { st with current := s }

/-- Lines 303-351: the main sentence loop. -/
def sentLoop (maxC : ℕ) : List String → ChunkState → ChunkState
  | [], st => st
  | s :: ss, st =>
    if s.length > maxC * 2 then
      sentLoop maxC ss
        (if (wordLoop maxC (pyWords s) "" st).2 ≠ "" then
          addLine maxC (wordLoop maxC (pyWords s) "" st).1
            (wordLoop maxC (pyWords s) "" st).2
         else (wordLoop maxC (pyWords s) "" st).1)
    else sentLoop maxC ss (shortSentence maxC st s)

/-- Embedding of `create_subtitle_chunks` (lines 289-357). -/
def create_subtitle_chunks (sentences : List String) (maxC : ℕ) : List String :=
  if (sentLoop maxC sentences ⟨[], ""⟩).current ≠ "" then
    (sentLoop maxC sentences ⟨[], ""⟩).chunks ++
      [(sentLoop maxC sentences ⟨[], ""⟩).current]
  else (sentLoop maxC sentences ⟨[], ""⟩).chunks

/-- The `\N`-separated wrapped lines of a chunk. -/
def assLinesAux : List Char → List Char → List (List Char)
  | [], acc => [acc.reverse]
  | '\\' :: 'N' :: cs, acc => acc.reverse :: assLinesAux cs []
  | c :: cs, acc => assLinesAux cs (c :: acc)

def assLines (c : String) : List String := (assLinesAux c.data []).map (⟨·⟩)

/-- C4 counterexample: for `max_chars_per_line = 5` the sentence
`"ab cd ef"` (length 8 ≤ 2×5) takes the short-sentence path and becomes a
single chunk with a single wrapped line of length 8 > 5, even though it is
not a single word (it has 3 words): the per-line bound of the claim fails
outside the claimed single-long-word exception. -/
theorem c4_counterexample :
    create_subtitle_chunks ["ab cd ef"] 5 = ["ab cd ef"] ∧
    assLines "ab cd ef" = ["ab cd ef"] ∧
    ¬ ("ab cd ef".length ≤ 5) ∧
    (pyWords "ab cd ef").length = 3 := by
  refine ⟨by decide, by decide, by decide, by decide⟩

def NoWsStr (s : String) : Prop := ∀ c ∈ s.data, pyIsSpace c = false

def chunkOk (m : ℕ) (c : String) : Prop := c.length ≤ m * 2 ∨ NoWsStr c

def lineOk (m : ℕ) (l : String) : Prop := l.length ≤ m ∨ NoWsStr l

def stOk (m : ℕ) (st : ChunkState) : Prop :=
  (∀ c ∈ st.chunks, chunkOk m c) ∧ chunkOk m st.current

lemma addLine_ok {m : ℕ} {st : ChunkState} {line : String}
    (hst : stOk m st) (hl : lineOk m line) : stOk m (addLine m st line) := by
  unfold addLine
  split_ifs with h1 h2
  · exact ⟨hst.1, Or.inl h2⟩
  · refine ⟨?_, ?_⟩
    · intro c hc
      rcases List.mem_append.mp hc with hc | hc
      · exact hst.1 c hc
      · rcases List.mem_singleton.mp hc with rfl
        exact hst.2
    · rcases hl with hl | hl
      · exact Or.inl (le_trans hl (by omega))
      · exact Or.inr hl
  · refine ⟨hst.1, ?_⟩
    rcases hl with hl | hl
    · exact Or.inl (le_trans hl (by omega))
    · exact Or.inr hl

lemma wordLoop_ok {m : ℕ} {ws : List String}
    (hws : ∀ w ∈ ws, NoWsStr w) :
    ∀ {line : String} {st : ChunkState}, stOk m st → lineOk m line →
      stOk m (wordLoop m ws line st).1 ∧ lineOk m (wordLoop m ws line st).2 := by
  induction ws with
  | nil => intro line st hst hl; exact ⟨hst, hl⟩
  | cons w ws ih =>
    intro line st hst hl
    have hw : NoWsStr w := hws w (List.mem_cons_self w ws)
    have hws' : ∀ v ∈ ws, NoWsStr v := fun v hv => hws v (List.mem_cons_of_mem w hv)
    rw [wordLoop]
    by_cases h : line.length + w.length + 1 ≤ m
    · rw [if_pos h]
      refine ih hws' hst ?_
      by_cases hle : line = ""
      · rw [if_pos hle]
        subst hle
        have h0 : ("" : String).length = 0 := rfl
        exact Or.inl (by omega)
      · rw [if_neg hle]
        refine Or.inl ?_
        have h1 : (" " : String).length = 1 := rfl
        have hlen : (line ++ " " ++ w).length = line.length + 1 + w.length := by
          simp only [String.length_append, h1]
        omega
    · rw [if_neg h]
      exact ih hws' (addLine_ok hst hl) (Or.inr hw)

lemma pyWordsAux_no_space {l : List Char} :
    ∀ acc, (∀ c ∈ acc, pyIsSpace c = false) →
      ∀ w ∈ pyWordsAux l acc, NoWsStr w := by
  induction l with
  | nil =>
    intro acc hacc w hw
    unfold pyWordsAux at hw
    split_ifs at hw with h
    · simp at hw
    · rcases List.mem_singleton.mp hw with rfl
      intro c hc
      exact hacc c (by simpa using hc)
  | cons c cs ih =>
    intro acc hacc w hw
    rw [pyWordsAux] at hw
    split_ifs at hw with h1 h2
    · exact ih [] (by simp) w hw
    · rcases List.mem_cons.mp hw with rfl | hw
      · intro d hd
        exact hacc d (by simpa using hd)
      · exact ih [] (by simp) w hw
    · refine ih (c :: acc) ?_ w hw
      intro d hd
      rcases List.mem_cons.mp hd with rfl | hd
      · simpa using h1
      · exact hacc d hd

lemma pyWords_no_space {s : String} : ∀ w ∈ pyWords s, NoWsStr w :=
  pyWordsAux_no_space [] (by simp)

lemma empty_len_le (n : ℕ) : ("" : String).length ≤ n := by
  have h0 : ("" : String).length = 0 := rfl
  omega

lemma shortSentence_ok {m : ℕ} {st : ChunkState} {s : String}
    (hst : stOk m st) (hs : s.length ≤ m * 2) :
    stOk m (shortSentence m st s) := by
  unfold shortSentence
  split_ifs with h1 h2
  · refine ⟨hst.1, Or.inl ?_⟩
    show (st.current ++ " | " ++ s).length ≤ m * 2
    have h3 : (" | " : String).length = 3 := rfl
    have hlen : (st.current ++ " | " ++ s).length =
        st.current.length + 3 + s.length := by
      simp only [String.length_append, h3]
    omega
  · refine ⟨?_, Or.inl hs⟩
    intro c hc
    rcases List.mem_append.mp hc with hc | hc
    · exact hst.1 c hc
    · rcases List.mem_singleton.mp hc with rfl
      exact hst.2
  · exact ⟨hst.1, Or.inl hs⟩

lemma sentLoop_ok {m : ℕ} {ss : List String} :
    ∀ {st : ChunkState}, stOk m st → stOk m (sentLoop m ss st) := by
  induction ss with
  | nil => intro st hst; exact hst
  | cons s ss ih =>
    intro st hst
    rw [sentLoop]
    by_cases h : s.length > m * 2
    · rw [if_pos h]
      refine ih ?_
      have hwl := wordLoop_ok (m := m) (pyWords_no_space (s := s)) hst
        (Or.inl (empty_len_le m))
      by_cases h2 : (wordLoop m (pyWords s) "" st).2 ≠ ""
      · rw [if_pos h2]
        exact addLine_ok hwl.1 hwl.2
      · rw [if_neg h2]
        exact hwl.1
    · rw [if_neg h]
      exact ih (shortSentence_ok hst (by omega))

/-- C4 (amended): every chunk produced by `create_subtitle_chunks` has
total text length at most `2 × max_chars_per_line` — and hence so does each
of its wrapped lines — unless the chunk is a single whitespace-free word
(an oversized word is left unsplit).  The stronger per-line bound of
`max_chars_per_line` claimed by the spec does not hold: sentences of length
between `max_chars_per_line` and `2 × max_chars_per_line` are packed as one
unwrapped line. -/
theorem c4_chunk_length_invariant (sentences : List String) (m : ℕ) :
    ∀ c ∈ create_subtitle_chunks sentences m,
      c.length ≤ m * 2 ∨ ∀ ch ∈ c.data, pyIsSpace ch = false := by
  intro c hc
  have hst : stOk m (sentLoop m sentences ⟨[], ""⟩) :=
    sentLoop_ok ⟨by simp, Or.inl (empty_len_le (m * 2))⟩
  unfold create_subtitle_chunks at hc
  split_ifs at hc with h
  · rcases List.mem_append.mp hc with hc | hc
    · exact hst.1 c hc
    · rcases List.mem_singleton.mp hc with rfl
      exact hst.2
  · exact hst.1 c hc

/-- Witness for `c4_chunk_length_invariant` at a concrete chunk list. -/
theorem c4_chunk_length_witness :
    ("hi | yo" ∈ create_subtitle_chunks ["hi", "yo"] 5) ∧
    ("hi | yo".length ≤ 5 * 2 ∨ ∀ ch ∈ "hi | yo".data, pyIsSpace ch = false) :=
  ⟨by decide, c4_chunk_length_invariant ["hi", "yo"] 5 "hi | yo" (by decide)⟩

/-! ## Subtitle cue generation (subtitles/generator.py, `create_subtitles`) -/

/-- A transcript segment: `start`/`end` in seconds (floats, modelled as
exact rationals), `text` possibly empty. -/
structure Segment where
  start : ℚ
  stop : ℚ
  text : String
deriving DecidableEq

/-- The transcript record shaped by the transcription client and reshaped
by the translation client. -/
structure Transcript where
  text : String
  language : Option String
  segments : List Segment
deriving DecidableEq

/-- A `pysubs2.SSAEvent` as this program fills it: times in
milliseconds, a text, and a style name. -/
structure SSAEvent where
  start : ℤ
  stop : ℤ
  text : String
  style : String
deriving DecidableEq

/-- Python `int(...)` on a rational (truncation toward zero). -/
def pyIntQ (q : ℚ) : ℤ := if q < 0 then ⌈q⌉ else ⌊q⌋

/-- The dual-mode secondary cue (generator.py lines 176-183): original
text under style `"EN"`, times from the primary segment. -/
def enEvent (s o : Segment) : SSAEvent :=
  ⟨pyIntQ (s.start * 1000), pyIntQ (s.stop * 1000), pyStrip o.text, "EN"⟩

/-- The dual-mode primary cue (lines 186-193): primary text under `"CN"`. -/
def cnEvent (s : Segment) : SSAEvent :=
  ⟨pyIntQ (s.start * 1000), pyIntQ (s.stop * 1000), pyStrip s.text, "CN"⟩

/-- The single-language cue (lines 196-203). -/
def defaultEvent (s : Segment) : SSAEvent :=
  ⟨pyIntQ (s.start * 1000), pyIntQ (s.stop * 1000), pyStrip s.text, "Default"⟩

/-- The segment loop of `create_subtitles` (lines 161-203).  `orig = some os`
models `original_segments` being set (a non-empty original transcript
segment list); `i` is the enumeration index.  A segment emits a dual
EN/CN pair when an original segment of the same index exists and its own
stripped text is non-empty; a single default cue when only its text is
non-empty; nothing when its stripped text is empty. -/
def segEventsAux (orig : Option (List Segment)) : List Segment → ℕ → List SSAEvent
  | [], _ => []
  | s :: ss, i =>
    (match orig with
     | some os =>
       if i < os.length ∧ pyStrip s.text ≠ "" then
         [enEvent s (os.getD i ⟨0, 0, ""⟩), cnEvent s]
       else if pyStrip s.text ≠ "" then [defaultEvent s]
       else []
     | none =>
       if pyStrip s.text ≠ "" then [defaultEvent s] else []) ++
    segEventsAux orig ss (i + 1)

def segEvents (segs : List Segment) (orig : Option (List Segment)) : List SSAEvent :=
  segEventsAux orig segs 0

/-- The synthetic chunk duration (line 226):
`max(3000, len(chunk) * 1000 // 15)` milliseconds. -/
def chunkDur (c : String) : ℕ := max 3000 (c.length * 1000 / 15)

/-- The no-segments loop of `create_subtitles` (lines 224-260): chunks are
timed back-to-back from `startT` with a 100 ms gap; in dual mode a chunk
with a matching-index original chunk yields an EN/CN pair. -/
def chunkEventsAux (origChunks : Option (List String)) :
    List String → ℕ → ℤ → List SSAEvent
  | [], _, _ => []
  | c :: cs, i, startT =>
    (match origChunks with
     | some oc =>
       if i < oc.length then
         [⟨startT, startT + (chunkDur c : ℤ), oc.getD i "", "EN"⟩,
          ⟨startT, startT + (chunkDur c : ℤ), c, "CN"⟩]
       else [⟨startT, startT + (chunkDur c : ℤ), c, "Default"⟩]
     | none => [⟨startT, startT + (chunkDur c : ℤ), c, "Default"⟩]) ++
    chunkEventsAux origChunks cs (i + 1) (startT + (chunkDur c : ℤ) + 100)

/-- The cue list produced by `create_subtitles` (lines 50-260), with file
writing abstracted away: error when the transcript has no text; the
segment loop when segments exist; otherwise the chunked flat text with
estimated timing. -/
def create_subtitles_events (t : Transcript) (origT : Option Transcript)
    (maxChars : ℕ) : Except String (List SSAEvent) :=
  if t.text = "" then .error "No text found in transcript for subtitle creation"
  else if t.segments ≠ [] then
    .ok (segEvents t.segments
      (match origT with
       | some o => if o.segments ≠ [] then some o.segments else none
       | none => none))
  else
    .ok (chunkEventsAux
      (match origT with
       | some o => some (create_subtitle_chunks (split_into_sentences o.text) maxChars)
       | none => none)
      (create_subtitle_chunks (split_into_sentences t.text) maxChars) 0 0)

lemma segEventsAux_append (orig : Option (List Segment)) (l1 l2 : List Segment) :
    ∀ j, segEventsAux orig (l1 ++ l2) j =
      segEventsAux orig l1 j ++ segEventsAux orig l2 (j + l1.length) := by
  induction l1 with
  | nil => intro j; simp [segEventsAux]
  | cons s ss ih =>
    intro j
    show _ ++ segEventsAux orig (ss ++ l2) (j + 1) =
      (_ ++ segEventsAux orig ss (j + 1)) ++ segEventsAux orig l2 (j + (s :: ss).length)
    rw [ih (j + 1), List.append_assoc]
    have harith : j + 1 + ss.length = j + (s :: ss).length := by
      simp [List.length_cons]
      omega
    rw [harith]

lemma segEventsAux_pairs (os : List Segment) :
    ∀ (segs : List Segment) (j : ℕ), os.length = j + segs.length →
      (∀ s ∈ segs, pyStrip s.text ≠ "") →
      (segEventsAux (some os) segs j).length = 2 * segs.length ∧
      ∀ i, i < segs.length →
        (segEventsAux (some os) segs j).get? (2 * i) =
          some (enEvent (segs.getD i ⟨0, 0, ""⟩) (os.getD (j + i) ⟨0, 0, ""⟩)) ∧
        (segEventsAux (some os) segs j).get? (2 * i + 1) =
          some (cnEvent (segs.getD i ⟨0, 0, ""⟩)) := by
  intro segs
  induction segs with
  | nil =>
    intro j h1 h2
    exact ⟨rfl, fun i hi => absurd hi (by simp)⟩
  | cons s ss ih =>
    intro j h1 h2
    have hlen : j < os.length := by
      rw [h1, List.length_cons]
      omega
    have hcond : j < os.length ∧ pyStrip s.text ≠ "" :=
      ⟨hlen, h2 s (List.mem_cons_self s ss)⟩
    have hunfold : segEventsAux (some os) (s :: ss) j =
        enEvent s (os.getD j ⟨0, 0, ""⟩) :: cnEvent s ::
          segEventsAux (some os) ss (j + 1) := by
      show (if j < os.length ∧ pyStrip s.text ≠ "" then
          [enEvent s (os.getD j ⟨0, 0, ""⟩), cnEvent s]
        else if pyStrip s.text ≠ "" then [defaultEvent s]
        else []) ++ segEventsAux (some os) ss (j + 1) = _
      rw [if_pos hcond]
      rfl
    have hss := ih (j + 1)
      (by rw [h1, List.length_cons]; omega)
      (fun v hv => h2 v (List.mem_cons_of_mem s hv))
    rw [hunfold]
    constructor
    · rw [List.length_cons, List.length_cons, hss.1, List.length_cons]
      omega
    · intro i hi
      cases i with
      | zero => exact ⟨rfl, rfl⟩
      | succ k =>
        have hk : k < ss.length := by
          rw [List.length_cons] at hi
          omega
        have h2k := hss.2 k hk
        constructor
        · show (segEventsAux (some os) ss (j + 1)).get? (2 * k) = _
          rw [h2k.1]
          have harith : j + 1 + k = j + (k + 1) := by omega
          rw [harith]
          rfl
        · show (segEventsAux (some os) ss (j + 1)).get? (2 * k + 1) = _
          rw [h2k.2]
          rfl

/-- C6 (amended): in dual mode, when the original segment list has the same
length as the primary one and every primary text is non-empty after
trimming, `create_subtitles` emits exactly `2 × segment_count` cues, the
pair at each index sharing one time range with the secondary text under
style `"EN"` and the primary text under style `"CN"`.  A trailing segment
with a non-empty primary text but no matching-index original segment emits
one cue under the default style.  A segment whose primary text trims to
empty emits NO cue (not the single default cue the spec claims). -/
theorem c6_dual_mode_cues :
    (∀ segs os : List Segment, os.length = segs.length →
      (∀ s ∈ segs, pyStrip s.text ≠ "") →
      (segEvents segs (some os)).length = 2 * segs.length ∧
      ∀ i, i < segs.length →
        (segEvents segs (some os)).get? (2 * i) =
          some (enEvent (segs.getD i ⟨0, 0, ""⟩) (os.getD i ⟨0, 0, ""⟩)) ∧
        (segEvents segs (some os)).get? (2 * i + 1) =
          some (cnEvent (segs.getD i ⟨0, 0, ""⟩))) ∧
    (∀ (segs os : List Segment) (s : Segment), os.length ≤ segs.length →
      pyStrip s.text ≠ "" →
      segEvents (segs ++ [s]) (some os) =
        segEvents segs (some os) ++ [defaultEvent s]) ∧
    (∀ (segs : List Segment) (orig : Option (List Segment)) (s : Segment),
      pyStrip s.text = "" →
      segEvents (segs ++ [s]) orig = segEvents segs orig) := by
  refine ⟨?_, ?_, ?_⟩
  · intro segs os h1 h2
    obtain ⟨hlen, hpair⟩ := segEventsAux_pairs os segs 0 (by omega) h2
    refine ⟨hlen, fun i hi => ?_⟩
    have hp := hpair i hi
    rw [Nat.zero_add] at hp
    exact hp
  · intro segs os s h1 h2
    show segEventsAux (some os) (segs ++ [s]) 0 = _
    rw [segEventsAux_append]
    have htail : segEventsAux (some os) [s] (0 + segs.length) = [defaultEvent s] := by
      show (if 0 + segs.length < os.length ∧ pyStrip s.text ≠ "" then
          [enEvent s (os.getD (0 + segs.length) ⟨0, 0, ""⟩), cnEvent s]
        else if pyStrip s.text ≠ "" then [defaultEvent s]
        else []) ++ segEventsAux (some os) [] (0 + segs.length + 1) = _
      rw [if_neg (fun hc => absurd hc.1 (by omega)), if_pos h2]
      rfl
    rw [htail]
    rfl
  · intro segs orig s h1
    show segEventsAux orig (segs ++ [s]) 0 = _
    rw [segEventsAux_append]
    have htail : segEventsAux orig [s] (0 + segs.length) = [] := by
      cases orig with
      | none =>
        show (if pyStrip s.text ≠ "" then [defaultEvent s] else []) ++
          segEventsAux none [] (0 + segs.length + 1) = []
        rw [if_neg (fun hc => hc h1)]
        rfl
      | some os =>
        show (if 0 + segs.length < os.length ∧ pyStrip s.text ≠ "" then
            [enEvent s (os.getD (0 + segs.length) ⟨0, 0, ""⟩), cnEvent s]
          else if pyStrip s.text ≠ "" then [defaultEvent s]
          else []) ++ segEventsAux (some os) [] (0 + segs.length + 1) = []
        rw [if_neg (fun hc => hc.2 h1), if_neg (fun hc => hc h1)]
        rfl
    rw [htail, List.append_nil]
    rfl

/-- C6 counterexample: a segment whose primary text is empty emits no cue
at all — the claim predicts a single cue under the default style (and the
2 × count total for same-length arrays), both contradicted here. -/
theorem c6_counterexample :
    segEvents [⟨0, 1, ""⟩] (some [⟨0, 1, "hi"⟩]) = [] ∧
    (segEvents [⟨0, 1, ""⟩] (some [⟨0, 1, "hi"⟩])).length ≠ 1 ∧
    (segEvents [⟨0, 1, ""⟩] (some [⟨0, 1, "hi"⟩])).length ≠ 2 * 1 := by
  refine ⟨by decide, by decide, by decide⟩

/-- Witness for `c6_dual_mode_cues`: one same-length dual pair. -/
theorem c6_dual_mode_witness :
    (([⟨0, 1, "hi"⟩] : List Segment).length = ([⟨0, 1, "ni"⟩] : List Segment).length) ∧
    (segEvents [⟨0, 1, "ni"⟩] (some [⟨0, 1, "hi"⟩])).length =
      2 * ([⟨0, 1, "ni"⟩] : List Segment).length :=
  ⟨rfl,
    (c6_dual_mode_cues.1 [⟨0, 1, "ni"⟩] [⟨0, 1, "hi"⟩] rfl (by decide)).1⟩

lemma chunkEventsAux_none_spec (chunks : List String) :
    ∀ (i : ℕ) (s0 : ℤ),
      (chunkEventsAux none chunks i s0).length = chunks.length ∧
      (∀ k e, (chunkEventsAux none chunks i s0).get? k = some e →
        chunks.get? k = some e.text ∧ e.style = "Default" ∧
        e.stop = e.start + (chunkDur e.text : ℤ)) ∧
      (∀ k e f, (chunkEventsAux none chunks i s0).get? k = some e →
        (chunkEventsAux none chunks i s0).get? (k + 1) = some f →
        f.start = e.stop + 100) ∧
      (∀ e, (chunkEventsAux none chunks i s0).get? 0 = some e → e.start = s0) := by
  induction chunks with
  | nil =>
    intro i s0
    refine ⟨rfl, ?_, ?_, ?_⟩
    · intro k e h
      simp [chunkEventsAux] at h
    · intro k e f h1 h2
      simp [chunkEventsAux] at h1
    · intro e h
      simp [chunkEventsAux] at h
  | cons c cs ih =>
    intro i s0
    have hrec := ih (i + 1) (s0 + (chunkDur c : ℤ) + 100)
    have hunf : chunkEventsAux none (c :: cs) i s0 =
        (⟨s0, s0 + (chunkDur c : ℤ), c, "Default"⟩ : SSAEvent) ::
          chunkEventsAux none cs (i + 1) (s0 + (chunkDur c : ℤ) + 100) := rfl
    rw [hunf]
    refine ⟨?_, ?_, ?_, ?_⟩
    · rw [List.length_cons, hrec.1, List.length_cons]
    · intro k e h
      cases k with
      | zero =>
        cases Option.some.inj h
        exact ⟨rfl, rfl, rfl⟩
      | succ k => exact hrec.2.1 k e h
    · intro k e f h1 h2
      cases k with
      | zero =>
        have he := Option.some.inj h1
        have hf := hrec.2.2.2 f h2
        rw [hf, ← he]
      | succ k => exact hrec.2.2.1 k e f h1 h2
    · intro e h
      cases Option.some.inj h
      rfl

/-- C8 (confirmed): with no segments, each chunk's cue lasts
`max(3000, chars × 1000 // 15)` ms, cues run back-to-back from the given
origin with a 100 ms gap, and the spec's end-to-end example — transcript
text `"Hello. How are you?"`, `max_chars_per_line = 42` — yields exactly
one cue `[0, 3000]`. -/
theorem c8_chunk_timing :
    (∀ (chunks : List String) (s0 : ℤ),
      (chunkEventsAux none chunks 0 s0).length = chunks.length ∧
      (∀ k e, (chunkEventsAux none chunks 0 s0).get? k = some e →
        chunks.get? k = some e.text ∧ e.style = "Default" ∧
        e.stop = e.start + (chunkDur e.text : ℤ)) ∧
      (∀ k e f, (chunkEventsAux none chunks 0 s0).get? k = some e →
        (chunkEventsAux none chunks 0 s0).get? (k + 1) = some f →
        f.start = e.stop + 100) ∧
      (∀ e, (chunkEventsAux none chunks 0 s0).get? 0 = some e → e.start = s0)) ∧
    (∀ (t : Transcript) (maxChars : ℕ), t.text ≠ "" → t.segments = [] →
      create_subtitles_events t none maxChars =
        .ok (chunkEventsAux none
          (create_subtitle_chunks (split_into_sentences t.text) maxChars) 0 0)) ∧
    create_subtitles_events ⟨"Hello. How are you?", none, []⟩ none 42 =
      .ok [⟨0, 3000, "Hello. | How are you?", "Default"⟩] := by
  refine ⟨fun chunks s0 => chunkEventsAux_none_spec chunks 0 s0, ?_, by rfl⟩
  intro t maxChars ht hs
  unfold create_subtitles_events
  rw [if_neg ht, if_neg (by simp [hs])]

/-- Witness for `c8_chunk_timing`: the per-cue facts at one concrete chunk. -/
theorem c8_chunk_timing_witness :
    ((chunkEventsAux none ["ab"] 0 0).get? 0 =
      some (⟨0, 3000, "ab", "Default"⟩ : SSAEvent)) ∧
    (["ab"].get? 0 =
        some ((⟨0, 3000, "ab", "Default"⟩ : SSAEvent)).text ∧
      (⟨0, 3000, "ab", "Default"⟩ : SSAEvent).style = "Default" ∧
      (⟨0, 3000, "ab", "Default"⟩ : SSAEvent).stop =
        (⟨0, 3000, "ab", "Default"⟩ : SSAEvent).start +
          (chunkDur (⟨0, 3000, "ab", "Default"⟩ : SSAEvent).text : ℤ)) :=
  ⟨by decide,
    (c8_chunk_timing.1 ["ab"] 0).2.1 0 ⟨0, 3000, "ab", "Default"⟩ (by decide)⟩

/-! ## Translation client (translate/api.py, `translate_text`) -/

/-- Python truthiness of an optional string: `None` and `""` are falsy
(`api_key or os.environ.get(...)`). -/
def truthyStr (o : Option String) : Bool := o.getD "" ≠ ""

/-- `[segment["text"] for segment in segments if segment.get("text")]`
(api.py lines 80-82). -/
def segmentTexts (segs : List Segment) : List String :=
  (segs.filter (fun s => s.text ≠ "")).map (fun s => s.text)

/-- The segment update loop (api.py lines 100-113): each segment with
non-empty text takes the next translation in order; empty-text segments
are kept as they are.  `none` models the `IndexError` Python would raise
if the translation list ran short (unreachable under the count guard,
where it would surface as a `TranslationError` via the outer handler). -/
def assignTranslations : List Segment → List String → Option (List Segment)
  | [], _ => some []
  | s :: ss, ts =>
    if s.text ≠ "" then
      match ts with
      | t :: ts2 => (assignTranslations ss ts2).map
          (fun r => { start := s.start, stop := s.stop, text := t } :: r)
      | [] => none
    else (assignTranslations ss ts).map (fun r => s :: r)

/-- Embedding of `translate_text` (api.py lines 13-123).  The two remote
calls are modelled by their outcomes: `mainOk`/`segOk` for
`raise_for_status`, `mainResp`/`segResp` for the `translations` text
arrays of the two responses. -/
def translate_text (t : Transcript) (target : String)
    (api_key env_key : Option String) (mainOk : Bool) (mainResp : List String)
    (segOk : Bool) (segResp : List String) : Except String Transcript :=
  if truthyStr (if truthyStr api_key then api_key else env_key) = false then
    .error "API key is required. Provide it as parameter or set the environment variable."
  else if t.text = "" then
    .error "No text found in transcript for translation"
  else if mainOk = false then
    .error "DeepL API request failed"
  else
    match mainResp with
    | [] => .error "No translation returned from DeepL API"
    | tt :: _ =>
      if t.segments ≠ [] ∧ segmentTexts t.segments ≠ [] then
        if segOk = false then .error "DeepL API request failed"
        else if segResp.length = (segmentTexts t.segments).length then
          match assignTranslations t.segments segResp with
          | some segs2 => .ok { text := tt, language := some target, segments := segs2 }
          | none => .error "Translation failed"
        else .ok { text := tt, language := some target, segments := t.segments }
      else .ok { text := tt, language := some target, segments := t.segments }

def exceptIsOk {α β : Type} : Except α β → Bool
  | .ok _ => true
  | .error _ => false

/-- C1 counterexample: 4 non-empty segment texts submitted, 3 translations
returned — `translate_text` does NOT raise; it returns a transcript whose
top-level text is translated and whose segments are left untranslated
(the count-mismatch guard at api.py lines 96-98 has no else branch). -/
theorem c1_counterexample :
    translate_text
        ⟨"hello", none, [⟨0, 1, "a"⟩, ⟨1, 2, "b"⟩, ⟨2, 3, "c"⟩, ⟨3, 4, "d"⟩]⟩
        "ES" (some "k") none true ["T"] true ["x", "y", "z"] =
      .ok ⟨"T", some "ES", [⟨0, 1, "a"⟩, ⟨1, 2, "b"⟩, ⟨2, 3, "c"⟩, ⟨3, 4, "d"⟩]⟩ ∧
    exceptIsOk (translate_text
        ⟨"hello", none, [⟨0, 1, "a"⟩, ⟨1, 2, "b"⟩, ⟨2, 3, "c"⟩, ⟨3, 4, "d"⟩]⟩
        "ES" (some "k") none true ["T"] true ["x", "y", "z"]) = true := by
  exact ⟨rfl, rfl⟩

/-- C1 (amended): when the returned translation count differs from the
number of non-empty segment texts submitted, `translate_text` does not
raise; it silently returns the transcript with its top-level text
translated and its segments left exactly as submitted (untranslated) — so
nothing is padded, dropped or misaligned, but no error signals the
partial response either. -/
theorem c1_mismatch_returns_untranslated
    (t : Transcript) (target : String) (key env : Option String)
    (tt : String) (rest segResp : List String)
    (hkey : truthyStr (if truthyStr key then key else env) = true)
    (htext : t.text ≠ "")
    (hst : segmentTexts t.segments ≠ [])
    (hmismatch : segResp.length ≠ (segmentTexts t.segments).length) :
    translate_text t target key env true (tt :: rest) true segResp =
      .ok { text := tt, language := some target, segments := t.segments } := by
  unfold translate_text
  rw [hkey]
  rw [if_neg (by simp)]
  rw [if_neg htext]
  rw [if_neg (by simp)]
  have hsegs : t.segments ≠ [] := by
    intro hc
    rw [hc] at hst
    exact hst rfl
  show (if t.segments ≠ [] ∧ segmentTexts t.segments ≠ [] then _ else _) = _
  rw [if_pos ⟨hsegs, hst⟩]
  rw [if_neg (by simp)]
  rw [if_neg hmismatch]

/-- Witness for `c1_mismatch_returns_untranslated` at a concrete mismatch
(1 non-empty text submitted, 0 translations returned). -/
theorem c1_mismatch_witness :
    (([] : List String).length ≠
      (segmentTexts [(⟨0, 1, "a"⟩ : Segment)]).length) ∧
    translate_text ⟨"h", none, [⟨0, 1, "a"⟩]⟩ "ES" (some "k") none true ["T"]
        true [] =
      .ok { text := "T", language := some "ES",
            segments := [(⟨0, 1, "a"⟩ : Segment)] } :=
  ⟨by decide,
    c1_mismatch_returns_untranslated ⟨"h", none, [⟨0, 1, "a"⟩]⟩ "ES"
      (some "k") none "T" [] [] rfl (by decide) (by decide) (by decide)⟩

/-- Number of non-empty-text segments strictly before index `i`: the rank
of segment `i` in the batched request. -/
def nonEmptyBefore (segs : List Segment) (i : ℕ) : ℕ :=
  ((segs.take i).filter (fun s => s.text ≠ "")).length

lemma assignTranslations_spec :
    ∀ (segs : List Segment) (ts : List String),
      ts.length = (segmentTexts segs).length →
      ∃ res, assignTranslations segs ts = some res ∧
        res.length = segs.length ∧
        ∀ i s, segs.get? i = some s →
          ∃ r, res.get? i = some r ∧ r.start = s.start ∧ r.stop = s.stop ∧
            (s.text = "" → r = s) ∧
            (s.text ≠ "" → ts.get? (nonEmptyBefore segs i) = some r.text) := by
  intro segs
  induction segs with
  | nil =>
    intro ts hts
    refine ⟨[], rfl, rfl, ?_⟩
    intro i s h
    simp at h
  | cons s ss ih =>
    intro ts hts
    by_cases hs : s.text = ""
    · have hst : segmentTexts (s :: ss) = segmentTexts ss := by
        unfold segmentTexts
        rw [List.filter_cons_of_neg (by simp [hs])]
      rw [hst] at hts
      obtain ⟨res, hres, hlen, hidx⟩ := ih ts hts
      refine ⟨s :: res, ?_, ?_, ?_⟩
      · show (if s.text ≠ "" then _ else (assignTranslations ss ts).map (fun r => s :: r)) = _
        rw [if_neg (by simp [hs]), hres]
        rfl
      · rw [List.length_cons, List.length_cons, hlen]
      · intro i q hq
        cases i with
        | zero =>
          cases Option.some.inj hq
          exact ⟨s, rfl, rfl, rfl, fun _ => rfl, fun hne => absurd hs hne⟩
        | succ k =>
          obtain ⟨r, hr, h1, h2, h3, h4⟩ := hidx k q hq
          refine ⟨r, hr, h1, h2, h3, fun hne => ?_⟩
          have hrank : nonEmptyBefore (s :: ss) (k + 1) = nonEmptyBefore ss k := by
            unfold nonEmptyBefore
            rw [List.take_succ_cons, List.filter_cons_of_neg (by simp [hs])]
          rw [hrank]
          exact h4 hne
    · have hst : segmentTexts (s :: ss) = s.text :: segmentTexts ss := by
        unfold segmentTexts
        rw [List.filter_cons_of_pos (by simp [hs])]
        rfl
      rw [hst, List.length_cons] at hts
      cases ts with
      | nil => simp at hts
      | cons u ts2 =>
        rw [List.length_cons] at hts
        have hts2 : ts2.length = (segmentTexts ss).length := by omega
        obtain ⟨res, hres, hlen, hidx⟩ := ih ts2 hts2
        have hassign : assignTranslations (s :: ss) (u :: ts2) =
            (assignTranslations ss ts2).map
              (fun r => { start := s.start, stop := s.stop, text := u } :: r) := by
          rw [assignTranslations, if_pos hs]
        refine ⟨⟨s.start, s.stop, u⟩ :: res, ?_, ?_, ?_⟩
        · rw [hassign, hres]
          rfl
        · rw [List.length_cons, List.length_cons, hlen]
        · intro i q hq
          cases i with
          | zero =>
            cases Option.some.inj hq
            refine ⟨⟨s.start, s.stop, u⟩, rfl, rfl, rfl,
              fun he => absurd he hs, fun _ => ?_⟩
            show (u :: ts2).get? (nonEmptyBefore (s :: ss) 0) = some u
            unfold nonEmptyBefore
            rw [List.take_zero]
            rfl
          | succ k =>
            obtain ⟨r, hr, h1, h2, h3, h4⟩ := hidx k q hq
            refine ⟨r, hr, h1, h2, h3, fun hne => ?_⟩
            have hrank : nonEmptyBefore (s :: ss) (k + 1) =
                nonEmptyBefore ss k + 1 := by
              unfold nonEmptyBefore
              rw [List.take_succ_cons, List.filter_cons_of_pos (by simp [hs]),
                List.length_cons]
            rw [hrank]
            show ts2.get? (nonEmptyBefore ss k) = some r.text
            exact h4 hne

lemma segmentTexts_nil_all_empty {segs : List Segment}
    (h : segmentTexts segs = []) : ∀ s ∈ segs, s.text = "" := by
  intro s hs
  by_contra hne
  have : s ∈ segs.filter (fun s => s.text ≠ "") :=
    List.mem_filter.mpr ⟨hs, by simp [hne]⟩
  have hmem : s.text ∈ segmentTexts segs := List.mem_map.mpr ⟨s, this, rfl⟩
  rw [h] at hmem
  simp at hmem

/-- C5 (confirmed): when the credential exists, the transcript has text,
both remote calls succeed and the returned segment-translation count
matches the submitted count, `translate_text` returns a NEW transcript
record (the embedding is pure; the code builds it from copies) whose text
is the first main translation, whose segment count equals the input's, in
which every segment keeps its `start`/`end`, empty-text segments pass
through unchanged (and are not part of the batched request), and each
non-empty segment's text is the response entry at its rank among
non-empty texts — the order of the single batched call. -/
theorem c5_translate_preserves_structure
    (t : Transcript) (target : String) (key env : Option String)
    (tt : String) (rest segResp : List String)
    (hkey : truthyStr (if truthyStr key then key else env) = true)
    (htext : t.text ≠ "")
    (hcount : segResp.length = (segmentTexts t.segments).length) :
    ∃ res, translate_text t target key env true (tt :: rest) true segResp =
        .ok { text := tt, language := some target, segments := res } ∧
      res.length = t.segments.length ∧
      ∀ i s, t.segments.get? i = some s →
        ∃ r, res.get? i = some r ∧ r.start = s.start ∧ r.stop = s.stop ∧
          (s.text = "" → r = s) ∧
          (s.text ≠ "" →
            segResp.get? (nonEmptyBefore t.segments i) = some r.text) := by
  by_cases hcond : t.segments ≠ [] ∧ segmentTexts t.segments ≠ []
  · obtain ⟨res, hres, hlen, hidx⟩ :=
      assignTranslations_spec t.segments segResp hcount
    refine ⟨res, ?_, hlen, hidx⟩
    unfold translate_text
    rw [hkey]
    rw [if_neg (by simp), if_neg htext, if_neg (by simp)]
    show (if t.segments ≠ [] ∧ segmentTexts t.segments ≠ [] then _ else _) = _
    rw [if_pos hcond, if_neg (by simp), if_pos hcount, hres]
  · refine ⟨t.segments, ?_, rfl, ?_⟩
    · unfold translate_text
      rw [hkey]
      rw [if_neg (by simp), if_neg htext, if_neg (by simp)]
      show (if t.segments ≠ [] ∧ segmentTexts t.segments ≠ [] then _ else _) = _
      rw [if_neg hcond]
    · intro i s hq
      refine ⟨s, hq, rfl, rfl, fun _ => rfl, fun hne => ?_⟩
      exfalso
      rcases not_and_or.mp hcond with hc | hc
      · have hnil : t.segments = [] := not_not.mp hc
        rw [hnil] at hq
        simp at hq
      · have hst : segmentTexts t.segments = [] := not_not.mp hc
        exact hne (segmentTexts_nil_all_empty hst s (List.get?_mem hq))

/-- Witness for `c5_translate_preserves_structure`: three segments, the
middle one empty, two translations returned for two submitted texts. -/
theorem c5_translate_witness :
    ((["X", "Y"] : List String).length =
      (segmentTexts [(⟨0, 1, "a"⟩ : Segment), ⟨1, 2, ""⟩, ⟨2, 3, "b"⟩]).length) ∧
    (∃ res,
      translate_text ⟨"h", none, [⟨0, 1, "a"⟩, ⟨1, 2, ""⟩, ⟨2, 3, "b"⟩]⟩ "ES"
          (some "k") none true ["T"] true ["X", "Y"] =
        .ok { text := "T", language := some "ES", segments := res } ∧
      res.length =
        (Transcript.mk "h" none [⟨0, 1, "a"⟩, ⟨1, 2, ""⟩, ⟨2, 3, "b"⟩]).segments.length ∧
      ∀ i s,
        (Transcript.mk "h" none [⟨0, 1, "a"⟩, ⟨1, 2, ""⟩, ⟨2, 3, "b"⟩]).segments.get? i =
          some s →
        ∃ r, res.get? i = some r ∧ r.start = s.start ∧ r.stop = s.stop ∧
          (s.text = "" → r = s) ∧
          (s.text ≠ "" →
            (["X", "Y"] : List String).get?
              (nonEmptyBefore
                (Transcript.mk "h" none [⟨0, 1, "a"⟩, ⟨1, 2, ""⟩, ⟨2, 3, "b"⟩]).segments i) =
              some r.text)) :=
  ⟨by decide,
    c5_translate_preserves_structure
      ⟨"h", none, [⟨0, 1, "a"⟩, ⟨1, 2, ""⟩, ⟨2, 3, "b"⟩]⟩ "ES" (some "k") none
      "T" [] ["X", "Y"] rfl (by decide) (by decide)⟩

/-! ## Subtitle embedding (encode/subtitle.py, `embed_subtitles`) -/

/-- Truthiness of the optional float `outline_width` (`0.0` is falsy). -/
def truthyQ (o : Option ℚ) : Bool := o.getD 0 ≠ 0

/-- The final path component (after the last `/`). -/
def lastNameAux : List Char → List Char → List Char
  | [], acc => acc.reverse
  | '/' :: cs, _ => lastNameAux cs []
  | c :: cs, acc => lastNameAux cs (c :: acc)

def lastName (p : String) : String := ⟨lastNameAux p.data []⟩

/-- `pathlib` `suffix`: the final component's extension from its last dot,
empty when there is no dot or the dot leads the name. -/
def pySuffix (p : String) : String :=
  if ((lastName p).data.reverse.takeWhile (fun c => c ≠ '.')).length + 1 <
      (lastName p).data.length + 1 then
    if ((lastName p).data.reverse.takeWhile (fun c => c ≠ '.')).length + 1 <
        (lastName p).data.length then
      ⟨'.' :: ((lastName p).data.reverse.takeWhile (fun c => c ≠ '.')).reverse⟩
    else ""
  else ""

/-- `pathlib` `stem`: the final component minus its suffix. -/
def pyStem (p : String) : String :=
  ⟨(lastName p).data.take ((lastName p).data.length - (pySuffix p).data.length)⟩

/-- `with_name`: the directory part plus a new final component. -/
def withName (p newName : String) : String :=
  ⟨p.data.take (p.data.length - (lastName p).data.length)⟩ ++ newName

/-- `with_suffix`: replace the final component's suffix. -/
def withSuffix (p suf : String) : String := withName p (pyStem p ++ suf)

/-- Embedding of `escape_path_for_ffmpeg` (subtitle.py lines 18-37):
backslashes become `/` first, so the later backslash doubling never fires;
colons and single quotes are escaped, and the result is wrapped in quotes. -/
def escape_path_for_ffmpeg (p : String) : String :=
  "'" ++
    ⟨(p.data.map (fun c => if c = '\\' then '/' else c)).flatMap (fun c =>
      if c = '\\' then ['\\', '\\']
      else if c = ':' then ['\\', ':']
      else if c = '\'' then ['\'', '\\', '\'', '\'']
      else [c])⟩ ++ "'"

/-- The position-code → numeric alignment map (subtitle.py lines 192-206),
defaulting to bottom center. -/
def alignmentOf (pos : String) : ℕ :=
  if pyLower pos = "tl" then 7 else if pyLower pos = "tc" then 8
  else if pyLower pos = "tr" then 9 else if pyLower pos = "ml" then 4
  else if pyLower pos = "mc" then 5 else if pyLower pos = "mr" then 6
  else if pyLower pos = "bl" then 1 else if pyLower pos = "bc" then 2
  else if pyLower pos = "br" then 3 else 2

/-- The `force_style` fragment list (subtitle.py lines 179-211).  The
rendering of the float `outline_width` is abstracted as `num/den`; only
its presence matters to the verified properties. -/
def forceStyleParts (font_name : Option String) (font_size : Option ℕ)
    (font_color outline_color : Option String) (outline_width : Option ℚ)
    (position : Option String) : List String :=
  (if truthyStr font_name then ["FontName=" ++ font_name.getD ""] else []) ++
  (if truthyNat font_size then ["FontSize=" ++ toString (font_size.getD 0)] else []) ++
  (if truthyStr font_color then ["PrimaryColour=&H" ++ font_color.getD ""] else []) ++
  (if truthyStr outline_color then ["OutlineColour=&H" ++ outline_color.getD ""] else []) ++
  (if truthyQ outline_width then
    ["Outline=" ++ toString (outline_width.getD 0).num ++ "/" ++
      toString (outline_width.getD 0).den] else []) ++
  (if truthyStr position then
    ["Alignment=" ++ toString (alignmentOf (position.getD ""))] else [])

/-- Embedding of `embed_subtitles` (subtitle.py lines 40-330) up to the
external process invocation: `.ok cmd` is the argument list that would be
executed, `.error` a raised `EncodeError`.  File existence and the probe
outcome are boolean parameters. -/
def embed_subtitles (videoExists subExists probeOk : Bool)
    (video_path subtitle_path : String) (output_path : Option String)
    (font_name : Option String) (font_size : Option ℕ) (font_color : Option String)
    (outline_width : Option ℚ) (outline_color : Option String)
    (position : Option String) (encoding_options : List (String × String))
    (burn_subtitles copy_video : Bool) (output_format : String)
    (show_progress use_hardware_accel : Bool)
    (hw_device render_method codec : String) : Except String (List String) :=
  if videoExists = false then .error "Video file not found"
  else if subExists = false then .error "Subtitle file not found"
  else if probeOk = false then .error "Failed to get video information"
  else if pyLower output_format ∉ ["mkv", "mp4", "webm"] then
    .error "Unsupported output format. Use mkv, mp4, or webm"
  else
    let fmt := pyLower output_format
    let out := match output_path with
      | none => withName video_path (pyStem video_path ++ "-sub." ++ fmt)
      | some op =>
        if pyLower (pySuffix op) ∉ ["." ++ fmt] then withSuffix op ("." ++ fmt)
        else op
    let render2 := if burn_subtitles ∧ use_hardware_accel then "sw" else render_method
    let hw : List String × String × String :=
      if use_hardware_accel then
        if hw_device = "vaapi" then
          if render2 = "sw" then
            (["-hwaccel", "vaapi"], "format=nv12,", ",hwupload")
          else (["-hwaccel", "vaapi", "-hwaccel_output_format", "vaapi"], "", "")
        else if hw_device = "cuda" then
          if render2 = "sw" then
            (["-hwaccel", "cuda"], "format=nv12,", ",hwupload_cuda")
          else (["-hwaccel", "cuda", "-hwaccel_output_format", "cuda"], "", "")
        else if hw_device = "qsv" then
          if render2 = "sw" then
            (["-hwaccel", "qsv"], "format=nv12,", ",hwupload=extra_hw_frames=64")
          else (["-hwaccel", "qsv", "-hwaccel_output_format", "qsv"], "", "")
        else ([], "", "")
      else ([], "", "")
    let cmd0 := ["ffmpeg", "-y"] ++ hw.1 ++ ["-i", video_path]
    let encOpts := encoding_options.flatMap (fun kv => ["-" ++ kv.1, kv.2])
    let stats : List String := if show_progress then ["-stats"] else []
    if burn_subtitles then
      let is_ass := pyLower (pySuffix subtitle_path) ∈ [".ass", ".ssa"]
      let esc := escape_path_for_ffmpeg subtitle_path
      let anyStyle := truthyStr font_name ∨ truthyNat font_size ∨
        truthyStr font_color ∨ truthyQ outline_width ∨
        truthyStr outline_color ∨ truthyStr position
      let subtitle_filter :=
        if is_ass ∧ ¬ anyStyle then "subtitles=" ++ esc
        else
          (let parts0 := forceStyleParts font_name font_size font_color
            outline_color outline_width position
          let parts := if parts0 ≠ [] then parts0 ++ ["BorderStyle=1"] else parts0
          let force_style :=
            if parts ≠ [] then
              ":force_style=" ++ "'" ++ String.intercalate "," parts ++ "'"
            else ""
          "subtitles=" ++ esc ++ force_style)
      let cmd1 := cmd0 ++ ["-map", "0:v", "-map", "0:a?", "-c:a", "copy",
        "-vf", hw.2.1 ++ subtitle_filter ++ hw.2.2]
      let enc :=
        if use_hardware_accel then
          if hw_device = "vaapi" then
            if codec = "h264" then ["-c:v", "h264_vaapi", "-qp", "18"]
            else if codec = "vp9" then ["-c:v", "vp9_vaapi", "-qp", "20"]
            else if codec = "av1" then ["-c:v", "av1_vaapi", "-qp", "20"]
            else []
          else if hw_device = "cuda" then
            if codec = "h264" then ["-c:v", "h264_nvenc", "-preset", "p4", "-qp", "18"]
            else if codec = "vp9" then ["-c:v", "libvpx-vp9", "-crf", "30", "-b:v", "0"]
            else if codec = "av1" then ["-c:v", "libaom-av1", "-crf", "30", "-b:v", "0"]
            else []
          else if hw_device = "qsv" then
            if codec = "h264" then ["-c:v", "h264_qsv", "-q", "18"]
            else if codec = "vp9" then ["-c:v", "libvpx-vp9", "-crf", "30", "-b:v", "0"]
            else if codec = "av1" then ["-c:v", "libaom-av1", "-crf", "30", "-b:v", "0"]
            else []
          else []
        else
          if codec = "vp9" then
            ["-c:v", "libvpx-vp9", "-crf", "30", "-b:v", "0",
             "-c:a", "libopus", "-b:a", "128k"]
          else if codec = "h264" then
            ["-c:v", "libx264", "-crf", "18", "-preset", "fast"]
          else if codec = "av1" then
            ["-c:v", "libaom-av1", "-crf", "30", "-b:v", "0"]
          else []
      .ok (cmd1 ++ enc ++ encOpts ++ stats ++ [out])
    else
      let cmdm := cmd0 ++ ["-i", subtitle_path, "-map", "0:v", "-map", "0:a?",
        "-map", "1", "-c:v", "copy", "-c:a", "copy"]
      if fmt = "mp4" then .ok (cmdm ++ ["-c:s", "mov_text"] ++ encOpts ++ stats ++ [out])
      else if fmt = "webm" then
        .error "WebM format only supports WebVTT subtitles when not burning in. Please use burn_subtitles=True or select mkv/mp4 output format."
      else .ok (cmdm ++ ["-c:s", "copy"] ++ encOpts ++ stats ++ [out])

/-- C9 (confirmed): with existing inputs and a successful probe, muxing
(`burn_subtitles = False`) into a WebM container — case-insensitive via
the lowercase normalization — always raises `EncodeError`, whatever the
other flags, and the function never reaches the external encode
invocation (no `.ok` argument list is produced). -/
theorem c9_webm_mux_error
    (video_path subtitle_path : String) (output_path : Option String)
    (font_name : Option String) (font_size : Option ℕ) (font_color : Option String)
    (outline_width : Option ℚ) (outline_color : Option String)
    (position : Option String) (encoding_options : List (String × String))
    (copy_video : Bool) (output_format : String)
    (show_progress use_hardware_accel : Bool)
    (hw_device render_method codec : String)
    (hfmt : pyLower output_format = "webm") :
    embed_subtitles true true true video_path subtitle_path output_path
        font_name font_size font_color outline_width outline_color position
        encoding_options false copy_video output_format show_progress
        use_hardware_accel hw_device render_method codec =
      .error "WebM format only supports WebVTT subtitles when not burning in. Please use burn_subtitles=True or select mkv/mp4 output format." := by
  unfold embed_subtitles
  rw [hfmt]
  simp

/-- Witness for `c9_webm_mux_error` at a fully concrete call. -/
theorem c9_webm_mux_witness :
    (pyLower "WebM" = "webm") ∧
    embed_subtitles true true true "v.mkv" "s.ass" none none none none none
        none none [] false true "WebM" true true "vaapi" "hw" "av1" =
      .error "WebM format only supports WebVTT subtitles when not burning in. Please use burn_subtitles=True or select mkv/mp4 output format." :=
  ⟨rfl,
    c9_webm_mux_error "v.mkv" "s.ass" none none none none none none none []
      true "WebM" true true "vaapi" "hw" "av1" rfl⟩

end Fleman
